import Mathlib

/-!
Verification of the ecommerce-ml recommendation engine (ml-service).

Shallow embedding of the algorithmic core of the repository:
  src/ml-service/src/algorithms/collaborative_filtering.py
  src/ml-service/src/algorithms/content_based_filtering.py
  src/ml-service/src/services/recommendation_service.py

Modelling conventions:
  - floating point scores and similarity values held in model state are
    modelled as exact rationals;
  - numpy argsort (ascending, stable for the small concrete arrays used
    here, where numpy falls back to insertion sort) is modelled as sorting
    indices by the lexicographic order (value, index), which coincides
    with a stable ascending argsort;
  - cosine similarity is modelled over the reals, with sklearn's
    convention that an all-zero row normalises to zero (similarity 0);
  - Python dict/list state is modelled as association lists / lists;
    exceptions are modelled as an explicit raised flag.
-/

namespace EcommerceML

/-! ## Generic helpers -/

/-- Read a rational list at an index, out of range gives 0 (matches numpy
reads that are always in range in the code paths modelled here). -/
def getQ (xs : List ℚ) (i : Nat) : ℚ := xs.getD i 0

/-- Lexicographic comparison of indices by (value at index, index):
the order used to model a stable ascending numpy argsort. -/
def lexLe (xs : List ℚ) (i j : Nat) : Prop :=
  getQ xs i < getQ xs j ∨ (getQ xs i = getQ xs j ∧ i ≤ j)

instance (xs : List ℚ) : DecidableRel (lexLe xs) := by
  intro i j
  unfold lexLe
  infer_instance

instance (xs : List ℚ) : IsTotal Nat (lexLe xs) := by
  constructor
  intro i j
  rcases lt_trichotomy (getQ xs i) (getQ xs j) with h | h | h
  · exact Or.inl (Or.inl h)
  · rcases Nat.le_total i j with hij | hij
    · exact Or.inl (Or.inr ⟨h, hij⟩)
    · exact Or.inr (Or.inr ⟨h.symm, hij⟩)
  · exact Or.inr (Or.inl h)

instance (xs : List ℚ) : IsTrans Nat (lexLe xs) := by
  constructor
  intro i j k hij hjk
  rcases hij with h1 | ⟨he1, hi1⟩
  · rcases hjk with h2 | ⟨he2, _⟩
    · exact Or.inl (h1.trans h2)
    · exact Or.inl (he2 ▸ h1)
  · rcases hjk with h2 | ⟨he2, hi2⟩
    · exact Or.inl (he1 ▸ h2)
    · exact Or.inr ⟨he1.trans he2, hi1.trans hi2⟩

/-- Model of numpy argsort on a 1-D array: indices of xs sorted ascending
by value, ties by index (stable). -/
def argsortAsc (xs : List ℚ) : List Nat :=
  List.insertionSort (lexLe xs) (List.range xs.length)

/-! ## RecommendationService._should_retrain
(src/services/recommendation_service.py lines 105-126)

Time is modelled in integer seconds.  The Python body performs two guarded
early returns when a last training time is recorded; with no recorded time
both guards are skipped and the function returns True. -/

def should_retrain (last_training_time : Option Int) (now : Int)
    (retrain_interval_hours : Int) (new_interactions : Nat)
    (min_new_interactions : Nat) : Bool :=
  match last_training_time with
  | some t =>
    if now - t < retrain_interval_hours * 3600 then false
    else if new_interactions < min_new_interactions then false
    else true
  | none => true

/-! ## RecommendationService.train_models
(src/services/recommendation_service.py lines 128-198)

The two filter training calls are each wrapped in their own try/except in
the source; a call either raises or completes leaving the filter's
is_trained flag set or not.  That per-call outcome is the FilterRun
parameter.  The `attempted` field records which per-filter try blocks were
entered (in the source, the collaborative block runs iff `interactions` is
non-empty and the content block iff `products` is non-empty, regardless of
what the other block did).  `saved` records that _save_models was called. -/

inductive FilterRun where
  | raises
  | completes (is_trained : Bool)
deriving DecidableEq

structure TrainModelsResult where
  status : String
  reason : Option String
  models_trained : List String
  attempted : List String
  last_training_time : Option Int
  saved : Bool
deriving DecidableEq

def train_models (force_retrain should_retrain_now : Bool)
    (last_training_time : Option Int) (start_time : Int)
    (interactions_count products_count : Nat)
    (collab_run content_run : FilterRun) : TrainModelsResult :=
  if ¬ force_retrain ∧ ¬ should_retrain_now then
    { status := "skipped"
      reason := some "Training conditions not met"
      models_trained := []
      attempted := []
      last_training_time := last_training_time
      saved := false }
  else
    { status := "success"
      reason := none
      models_trained :=
        (if interactions_count ≠ 0 ∧ collab_run = FilterRun.completes true then
          ["collaborative_filtering"] else []) ++
        (if products_count ≠ 0 ∧ content_run = FilterRun.completes true then
          ["content_based_filtering"] else [])
      attempted :=
        (if interactions_count ≠ 0 then ["collaborative_filtering"] else []) ++
        (if products_count ≠ 0 then ["content_based_filtering"] else [])
      last_training_time := some start_time
      saved := true }

/-! ## Hybrid candidate combination, RecommendationService.get_recommendations
(src/services/recommendation_service.py lines 260-293)

Candidates collected from the two filters are grouped by product id into
an insertion-ordered dict (modelled as a list of Grouped in first-seen key
order), scores summed, algorithm tags and reason texts concatenated; the
grouped values are then sorted by total score descending (Python sorted is
stable), truncated to limit and retagged hybrid. -/

structure Cand where
  productId : String
  score : ℚ
  algorithm : String
  reason : String
deriving DecidableEq

structure Grouped where
  productId : String
  total_score : ℚ
  algorithms : List String
  reasons : List String
deriving DecidableEq

structure HybridRec where
  productId : String
  score : ℚ
  algorithm : String
  reason : String
  contributing_algorithms : List String
deriving DecidableEq

/-- Accumulate one candidate onto its grouped entry (+= score, append
algorithm tag and reason). -/
def updateG (g : Grouped) (c : Cand) : Grouped :=
  { g with
      total_score := g.total_score + c.score
      algorithms := g.algorithms ++ [c.algorithm]
      reasons := g.reasons ++ [c.reason] }

/-- The fresh dict entry for a first-seen product id, already holding the
candidate's contribution (the source creates a zero entry and immediately
accumulates onto it). -/
def newG (c : Cand) : Grouped :=
  { productId := c.productId
    total_score := 0 + c.score
    algorithms := [c.algorithm]
    reasons := [c.reason] }

/-- One loop iteration of the grouping pass: a missing product id gets a
fresh zero entry appended (dict insertion order), then the candidate's
score, algorithm and reason are accumulated onto its entry. -/
def addCand (acc : List Grouped) (c : Cand) : List Grouped :=
  if acc.any (fun g => g.productId == c.productId) then
    acc.map (fun g => if g.productId == c.productId then updateG g c else g)
  else
    acc ++ [newG c]

def groupCands (recs : List Cand) : List Grouped := recs.foldl addCand []

/-- Python sorted(..., key=total_score, reverse=True); the relation
compares summed scores descending. -/
def sortGrouped (l : List Grouped) : List Grouped :=
  List.insertionSort (fun a b => b.total_score ≤ a.total_score) l

def hybridCombine (recs : List Cand) (limit : Nat) : List HybridRec :=
  ((sortGrouped (groupCands recs)).take limit).map
    (fun p => { productId := p.productId
                score := p.total_score
                algorithm := "hybrid"
                reason := "Recommended by multiple algorithms"
                contributing_algorithms := p.algorithms })

/-- Accumulating a block of candidates (all with g's product id) onto a
grouped entry; proof-side characterisation of addCand folds. -/
def extendG (g : Grouped) (cs : List Cand) : Grouped :=
  { productId := g.productId
    total_score := g.total_score + (cs.map (fun c => c.score)).sum
    algorithms := g.algorithms ++ cs.map (fun c => c.algorithm)
    reasons := g.reasons ++ cs.map (fun c => c.reason) }

/-! ## CollaborativeFiltering.get_user_recommendations
(src/algorithms/collaborative_filtering.py lines 176-240)

The trained state read during inference: user-item matrix, user
similarity matrix (float entries modelled as rationals), the user index
dict and the reverse item map (a list indexed by column).  numpy argsort
over the similarity row selects neighbours: [::-1][1:11] is reverse, drop
1, take 10; only strictly positive similarities contribute; scores at
already-interacted columns are set to 0; [::-1][:n] then takes the top n,
and only strictly positive scores are emitted. -/

structure CFModel where
  user_item_matrix : List (List ℚ)
  user_similarity_matrix : List (List ℚ)
  user_index_map : List (String × Nat)
  items : List String
  is_trained : Bool
deriving DecidableEq

/-- np.argsort(sims)[::-1][1:11]: the top 10 most similar users after
skipping the top-ranked index. -/
def neighborIdx (sims : List ℚ) : List Nat :=
  ((argsortAsc sims).reverse.drop 1).take 10

/-- Accumulated recommendation score of item column j for user row u:
similarity-weighted sum over the selected neighbours with strictly
positive similarity, then forced to 0 when user u already interacted
with column j. -/
def cfScore (m : CFModel) (u : Nat) (j : Nat) : ℚ :=
  if 0 < getQ (m.user_item_matrix.getD u []) j then 0
  else ((neighborIdx (m.user_similarity_matrix.getD u [])).map (fun i =>
    if 0 < getQ (m.user_similarity_matrix.getD u []) i then
      getQ (m.user_similarity_matrix.getD u []) i *
        getQ (m.user_item_matrix.getD i []) j
    else 0)).sum

/-- The item_scores array (length = matrix shape[1]). -/
def cfScores (m : CFModel) (u : Nat) : List ℚ :=
  (List.range (m.user_item_matrix.headD []).length).map (cfScore m u)

def get_user_recommendations (m : CFModel) (user_id : String) (n : Nat) :
    List (String × ℚ) :=
  if m.is_trained = false then []
  else
    match m.user_index_map.lookup user_id with
    | none => []
    | some u =>
      (((argsortAsc (cfScores m u)).reverse).take n).filterMap
        (fun j => if 0 < getQ (cfScores m u) j then
            some (m.items.getD j "", getQ (cfScores m u) j)
          else none)

/-! ## ContentBasedFiltering.get_similar_products
(src/algorithms/content_based_filtering.py lines 199-243)

Same argsort convention; the self entry is excluded only positionally
([::-1][1:n+1] skips the single top-ranked index), with no identity check
and no positivity filter. -/

structure CBModel where
  product_similarity_matrix : List (List ℚ)
  products : List String
  product_index_map : List (String × Nat)
  is_trained : Bool
deriving DecidableEq

def get_similar_products (m : CBModel) (product_id : String) (n : Nat) :
    List (String × ℚ) :=
  if m.is_trained = false then []
  else
    match m.product_index_map.lookup product_id with
    | none => []
    | some idx =>
      let sims := m.product_similarity_matrix.getD idx []
      (((argsortAsc sims).reverse.drop 1).take n).map
        (fun j => (m.products.getD j "", getQ sims j))

/-! ## CollaborativeFiltering.prepare_data and training
(src/algorithms/collaborative_filtering.py lines 37-174)

The scoring loop iterates over the interactionTypes list of the FIRST
row only (df['interactionTypes'].iloc[0]) and adds that type's weight to
every row whose own type list contains it.  The subsequent
df['score'].fillna(df['interactions']) is the identity: the score column
was initialised to 0 and weights only ever add to it, so it never holds
a missing value.  Users and items are then filtered by total summed
score against min_interactions (computed over the unfiltered frame).

pandas pivot_table(index=userId, columns=productId, values=score,
fill_value=0) sorts the distinct user and product ids ascending (python
string order = code point order, modelled by charLe) and aggregates
duplicate (user, product) cells with the default mean.

The TruncatedSVD reduction branch (taken only when the item count
exceeds n_components = 50) is not modelled; every concrete instance used
here stays below that threshold, where the source uses the raw matrix. -/

structure IRecord where
  userId : String
  productId : String
  interactions : ℚ
  interactionTypes : List String
deriving DecidableEq

def interaction_weights (t : String) : Option ℚ :=
  if t = "view" then some 1
  else if t = "cart_add" then some 2
  else if t = "purchase" then some 3
  else none

/-- Score the loop assigns to row r: for each type in the first row's
list (in order, with multiplicity) that is a known weight key, add its
weight when r's own type list contains that type. -/
def rowScore (activeTypes : List String) (r : IRecord) : ℚ :=
  (activeTypes.map (fun t =>
    match interaction_weights t with
    | some w => if t ∈ r.interactionTypes then w else 0
    | none => 0)).sum

/-- The score column prepare_data computes over the whole frame. -/
def interactionScores (interactions : List IRecord) : List ℚ :=
  match interactions with
  | [] => []
  | r0 :: _ => interactions.map (rowScore r0.interactionTypes)

/-- Modelled from the spec (sections 3 and 4.1): the intended per-row
score, i.e. the sum of the fixed interaction weights over the row's own
distinct recorded types, falling back to the raw interaction count when
no types are recorded.  Stated only to exhibit the divergence of the
source's scoring from it. -/
def specRowScore (r : IRecord) : ℚ :=
  if r.interactionTypes = [] then r.interactions
  else (r.interactionTypes.dedup.map (fun t => (interaction_weights t).getD 0)).sum

def prepare_data (min_interactions : ℚ) (interactions : List IRecord) :
    List (IRecord × ℚ) :=
  match interactions with
  | [] => []
  | r0 :: _ =>
    let scored := interactions.map (fun r => (r, rowScore r0.interactionTypes r))
    let userTotal : String → ℚ := fun u =>
      ((scored.filter (fun x => x.1.userId == u)).map (fun x => x.2)).sum
    let itemTotal : String → ℚ := fun p =>
      ((scored.filter (fun x => x.1.productId == p)).map (fun x => x.2)).sum
    scored.filter (fun x =>
      decide (min_interactions ≤ userTotal x.1.userId) &&
      decide (min_interactions ≤ itemTotal x.1.productId))

/-- Code point comparison of strings, the order python string sorting
uses (executable, unlike the builtin String order). -/
def charLe : List Char → List Char → Bool
  | [], _ => true
  | _ :: _, [] => false
  | c :: cs, d :: ds =>
    if c.toNat < d.toNat then true
    else if d.toNat < c.toNat then false
    else charLe cs ds

def strLe (a b : String) : Bool := charLe a.toList b.toList

/-- Distinct values in ascending order, as a pandas pivot index. -/
def sortedUnique (l : List String) : List String :=
  List.insertionSort (fun a b => strLe a b = true) l.dedup

/-- One pivot_table cell: mean of the matching scores, fill_value 0. -/
def pivotEntry (rows : List (IRecord × ℚ)) (u p : String) : ℚ :=
  let cell := (rows.filter (fun x => x.1.userId == u && x.1.productId == p)).map
    (fun x => x.2)
  if cell.length = 0 then 0 else cell.sum / (cell.length : ℚ)

def create_user_item_matrix (rows : List (IRecord × ℚ)) :
    List String × List String × List (List ℚ) :=
  let users := sortedUnique (rows.map (fun x => x.1.userId))
  let items := sortedUnique (rows.map (fun x => x.1.productId))
  (users, items, users.map (fun u => items.map (fun p => pivotEntry rows u p)))

def enumIndex (l : List String) : List (String × Nat) :=
  (l.enum).map (fun x => (x.2, x.1))

/-- The collaborative filter's mutable training state.  The similarity
matrix is represented by the matrix it was computed from (sim_source);
its real-valued entries are simMatrix of that source. -/
structure CFTrainState where
  user_item_matrix : Option (List (List ℚ))
  user_index_map : List (String × Nat)
  item_index_map : List (String × Nat)
  sim_source : Option (List (List ℚ))
  is_trained : Bool
deriving DecidableEq

/-- CollaborativeFiltering.train (lines 132-174).  sim_raises injects an
unexpected exception at the cosine_similarity call; the except handler
sets is_trained to False and re-raises (the returned Bool is the raised
flag).  Index maps and the user-item matrix are assigned before that
point, exactly as in the source. -/
def cfTrain (s : CFTrainState) (min_interactions : ℚ)
    (interactions : List IRecord) (sim_raises : Bool) : CFTrainState × Bool :=
  let df := prepare_data min_interactions interactions
  if df.isEmpty then ({ s with is_trained := false }, false)
  else
    let uim := create_user_item_matrix df
    let s1 := { s with
      user_item_matrix := some uim.2.2
      user_index_map := enumIndex uim.1
      item_index_map := enumIndex uim.2.1 }
    if uim.2.2.isEmpty then ({ s1 with is_trained := false }, false)
    else if sim_raises then ({ s1 with is_trained := false }, true)
    else ({ s1 with sim_source := some uim.2.2, is_trained := true }, false)

/-- The content filter's mutable training state (feature matrix, product
index dict, similarity and trained flag). -/
structure CBTrainState where
  product_features : Option (List (List ℚ))
  product_index_map : List (String × Nat)
  sim_source : Option (List (List ℚ))
  is_trained : Bool
deriving DecidableEq

/-- ContentBasedFiltering.train (lines 154-197).  prepare_product_data's
text normalisation and extract_features' TF-IDF/scaling pipeline are
abstracted into the featuresOf parameter (the claims settled against
this definition concern only the state discipline, which they do not
affect); the source's ordering is kept: an empty product frame is a
silent no-op, the product index maps are built before feature
extraction, empty features are a silent no-op, and an exception at the
cosine_similarity call sets is_trained to False and re-raises. -/
def cbTrain (s : CBTrainState) (productIds : List String)
    (featuresOf : List String → List (List ℚ)) (sim_raises : Bool) :
    CBTrainState × Bool :=
  if productIds.isEmpty then ({ s with is_trained := false }, false)
  else
    let s1 := { s with product_index_map := enumIndex productIds }
    let feats := featuresOf productIds
    let s2 := { s1 with product_features := some feats }
    if feats.isEmpty then ({ s2 with is_trained := false }, false)
    else if sim_raises then ({ s2 with is_trained := false }, true)
    else ({ s2 with sim_source := some feats, is_trained := true }, false)

/-! ## Cosine similarity (sklearn cosine_similarity over matrix rows)

Entries are modelled over the reals; sklearn normalises each row and an
all-zero row stays zero, so a pairing involving a zero row yields 0. -/

def dotQ (x y : List ℚ) : ℚ := (List.zipWith (fun a b => a * b) x y).sum

noncomputable def simQ (x y : List ℚ) : ℝ :=
  if dotQ x x = 0 ∨ dotQ y y = 0 then 0
  else ((dotQ x y : ℚ) : ℝ) /
    (Real.sqrt ((dotQ x x : ℚ) : ℝ) * Real.sqrt ((dotQ y y : ℚ) : ℝ))

noncomputable def simMatrix (m : List (List ℚ)) : List (List ℝ) :=
  m.map (fun x => m.map (fun y => simQ x y))

def entryR (m : List (List ℝ)) (i j : Nat) : ℝ := (m.getD i []).getD j 0

/-! ## Concrete instances used by counterexamples and witnesses -/

/-- Hybrid-mode candidate lists: both algorithms propose p7, a third
candidate outscores it. -/
def candsEx : List Cand :=
  [⟨"p1", 100, "collaborative_filtering", "Users with similar preferences also liked this"⟩,
   ⟨"p7", 1, "collaborative_filtering", "Users with similar preferences also liked this"⟩,
   ⟨"p7", 1, "content_based_filtering", "Based on products you have viewed"⟩]

/-- Aggregated interaction rows on which training succeeds but user A's
pivot row is all zero: A's positive-score rows sit on items filtered out
for low totals, while A's surviving row on the popular item p9 scores 0
because its type (view) does not occur in the first row's type list. -/
def interactionsEx : List IRecord :=
  [⟨"B", "p9", 2, ["purchase", "cart_add"]⟩,
   ⟨"A", "p3", 1, ["purchase"]⟩,
   ⟨"A", "p4", 1, ["purchase"]⟩,
   ⟨"A", "p9", 1, ["view"]⟩]

/-- Interaction rows whose second row's only type is absent from the
first row's type list. -/
def scoresEx : List IRecord :=
  [⟨"u1", "pa", 1, ["view"]⟩, ⟨"u2", "pb", 1, ["purchase"]⟩]

/-- A previously trained collaborative state. -/
def cfPrevState : CFTrainState :=
  { user_item_matrix := some [[1]]
    user_index_map := [("u", 0)]
    item_index_map := [("p", 0)]
    sim_source := some [[1]]
    is_trained := true }

/-- The untrained state a fresh CollaborativeFiltering() starts from. -/
def cfFreshState : CFTrainState :=
  { user_item_matrix := none
    user_index_map := []
    item_index_map := []
    sim_source := none
    is_trained := false }

/-- A previously trained content state. -/
def cbPrevState : CBTrainState :=
  { product_features := some [[1]]
    product_index_map := [("p", 0)]
    sim_source := some [[1]]
    is_trained := true }

/-- Trained collaborative model with two equal-scored candidate items
(columns 1 and 2) for user u0. -/
def cfModelEx : CFModel :=
  { user_item_matrix := [[1, 0, 0], [1, 3, 3]]
    user_similarity_matrix := [[1, 1/4], [1/4, 1]]
    user_index_map := [("u0", 0), ("u1", 1)]
    items := ["p0", "p1", "p2"]
    is_trained := true }

/-- Trained content model with two identical products: the query
product's similarity row ties at the maximum. -/
def cbModelTie : CBModel :=
  { product_similarity_matrix := [[1, 1], [1, 1]]
    products := ["q0", "q1"]
    product_index_map := [("q0", 0), ("q1", 1)]
    is_trained := true }

/-- Trained content model whose query product is the strict maximum of
its own similarity row. -/
def cbModelStrict : CBModel :=
  { product_similarity_matrix := [[1, 1/2], [1/2, 1]]
    products := ["q0", "q1"]
    product_index_map := [("q0", 0), ("q1", 1)]
    is_trained := true }

/-! ## Supporting lemmas -/

theorem argsortAsc_perm (xs : List ℚ) :
    (argsortAsc xs).Perm (List.range xs.length) :=
  List.perm_insertionSort _ _

theorem mem_argsortAsc {xs : List ℚ} {j : Nat} :
    j ∈ argsortAsc xs ↔ j < xs.length := by
  rw [(argsortAsc_perm xs).mem_iff, List.mem_range]

theorem argsortAsc_nodup (xs : List ℚ) : (argsortAsc xs).Nodup :=
  ((argsortAsc_perm xs).nodup_iff).mpr (List.nodup_range _)

theorem argsortAsc_sorted (xs : List ℚ) :
    List.Sorted (lexLe xs) (argsortAsc xs) :=
  List.sorted_insertionSort _ _

theorem getQ_map_range (f : Nat → ℚ) (n j : Nat) (h : j < n) :
    getQ ((List.range n).map f) j = f j := by
  unfold getQ
  rw [List.getD_eq_getElem _ _ (by simpa using h)]
  simp

theorem getQ_pos_lt {xs : List ℚ} {i : Nat} (h : 0 < getQ xs i) :
    i < xs.length := by
  by_contra hge
  rw [getQ, List.getD_eq_default _ _ (not_lt.mp hge)] at h
  exact lt_irrefl 0 h

theorem lexLe_strict {xs : List ℚ} {i j : Nat} (h : lexLe xs i j)
    (hne : i ≠ j) :
    getQ xs i < getQ xs j ∨ (getQ xs i = getQ xs j ∧ i < j) := by
  rcases h with h | ⟨he, hle⟩
  · exact Or.inl h
  · exact Or.inr ⟨he, lt_of_le_of_ne hle hne⟩

/-- When one index holds the strict maximum value, the reversed argsort
starts with exactly that index. -/
theorem argsortAsc_reverse_strict_max (xs : List ℚ) (idx : Nat)
    (hidx : idx < xs.length)
    (hmax : ∀ j, j < xs.length → j ≠ idx → getQ xs j < getQ xs idx) :
    ∃ rest, (argsortAsc xs).reverse = idx :: rest ∧ idx ∉ rest ∧
      ∀ j ∈ rest, j < xs.length := by
  have hmem : idx ∈ (argsortAsc xs).reverse := by
    rw [List.mem_reverse]
    exact mem_argsortAsc.mpr hidx
  have hpw : List.Pairwise (fun a b => lexLe xs b a) (argsortAsc xs).reverse :=
    List.pairwise_reverse.mpr (argsortAsc_sorted xs)
  have hnd : (argsortAsc xs).reverse.Nodup :=
    List.nodup_reverse.mpr (argsortAsc_nodup xs)
  obtain ⟨a, rest, hrev⟩ : ∃ a rest, (argsortAsc xs).reverse = a :: rest := by
    cases hcons : (argsortAsc xs).reverse with
    | nil => rw [hcons] at hmem ; exact absurd hmem (List.not_mem_nil idx)
    | cons a rest => exact ⟨a, rest, rfl⟩
  rw [hrev] at hmem hpw hnd
  have ha : a = idx := by
    by_contra hne
    have hidxrest : idx ∈ rest := by
      rcases List.mem_cons.mp hmem with h | h
      · exact absurd h.symm hne
      · exact h
    have hle : lexLe xs idx a := List.rel_of_pairwise_cons hpw hidxrest
    have haxs : a < xs.length := by
      have : a ∈ (argsortAsc xs).reverse := by
        rw [hrev] ; exact List.mem_cons_self a rest
      rw [List.mem_reverse] at this
      exact mem_argsortAsc.mp this
    have hlt : getQ xs a < getQ xs idx := hmax a haxs hne
    rcases hle with h | ⟨he, _⟩
    · exact absurd hlt (not_lt.mpr (le_of_lt h))
    · exact absurd hlt (not_lt.mpr (le_of_eq he))
  refine ⟨rest, by rw [hrev, ha], ?_, ?_⟩
  · rw [ha] at hnd
    exact (List.nodup_cons.mp hnd).1
  · intro j hj
    have : j ∈ (argsortAsc xs).reverse := by
      rw [hrev] ; exact List.mem_cons_of_mem a hj
    rw [List.mem_reverse] at this
    exact mem_argsortAsc.mp this

theorem dotQ_self_nonneg (x : List ℚ) : 0 ≤ dotQ x x := by
  induction x with
  | nil => simp [dotQ]
  | cons a t ih => simpa [dotQ] using add_nonneg (mul_self_nonneg a) ih

theorem dotQ_comm (x y : List ℚ) : dotQ x y = dotQ y x := by
  induction x generalizing y with
  | nil => cases y <;> simp [dotQ]
  | cons a t ih =>
    cases y with
    | nil => simp [dotQ]
    | cons b s =>
      simp only [dotQ, List.zipWith_cons_cons, List.sum_cons] at ih ⊢
      rw [ih, mul_comm]

theorem simQ_comm (x y : List ℚ) : simQ x y = simQ y x := by
  unfold simQ
  rw [dotQ_comm x y]
  by_cases h : dotQ x x = 0 ∨ dotQ y y = 0
  · rw [if_pos h, if_pos (Or.symm h)]
  · rw [if_neg h, if_neg (fun hc => h (Or.symm hc)), mul_comm]

theorem simQ_self_one {x : List ℚ} (h : dotQ x x ≠ 0) : simQ x x = 1 := by
  have hr : (0:ℝ) ≤ ((dotQ x x : ℚ) : ℝ) := by
    exact_mod_cast dotQ_self_nonneg x
  rw [simQ, if_neg (by simp [h]), Real.mul_self_sqrt hr]
  exact div_self (by exact_mod_cast h)

theorem simQ_self_zero {x : List ℚ} (h : dotQ x x = 0) : simQ x x = 0 := by
  simp [simQ, h]

theorem simMatrix_getD_row {m : List (List ℚ)} {i : Nat} (hi : i < m.length) :
    (simMatrix m).getD i [] = m.map (fun y => simQ (m.getD i []) y) := by
  unfold simMatrix
  rw [List.getD_eq_getElem _ _ (by simpa using hi), List.getElem_map,
    List.getD_eq_getElem _ _ hi]

theorem entryR_simMatrix {m : List (List ℚ)} {i j : Nat}
    (hi : i < m.length) (hj : j < m.length) :
    entryR (simMatrix m) i j = simQ (m.getD i []) (m.getD j []) := by
  unfold entryR
  rw [simMatrix_getD_row hi]
  rw [List.getD_eq_getElem _ _ (by simpa using hj), List.getElem_map,
    List.getD_eq_getElem _ _ hj]

theorem entryR_simMatrix_left_oob {m : List (List ℚ)} {i j : Nat}
    (hi : m.length ≤ i) : entryR (simMatrix m) i j = 0 := by
  unfold entryR
  have h1 : (simMatrix m).getD i [] = [] := by
    apply List.getD_eq_default
    simpa [simMatrix] using hi
  rw [h1]
  rfl

theorem entryR_simMatrix_right_oob {m : List (List ℚ)} {i j : Nat}
    (hj : m.length ≤ j) : entryR (simMatrix m) i j = 0 := by
  unfold entryR
  by_cases hi : i < m.length
  · rw [simMatrix_getD_row hi]
    apply List.getD_eq_default
    simpa using hj
  · have h1 : (simMatrix m).getD i [] = [] := by
      apply List.getD_eq_default
      simpa [simMatrix] using not_lt.mp hi
    rw [h1]
    rfl

/-! ## Claim theorems -/

/-- Evaluation of train_models on a forced run. -/
theorem train_models_force_eq (should : Bool) (last : Option Int) (start : Int)
    (ic pc : Nat) (cr kr : FilterRun) :
    train_models true should last start ic pc cr kr =
      { status := "success"
        reason := none
        models_trained :=
          (if ic ≠ 0 ∧ cr = FilterRun.completes true then
            ["collaborative_filtering"] else []) ++
          (if pc ≠ 0 ∧ kr = FilterRun.completes true then
            ["content_based_filtering"] else [])
        attempted :=
          (if ic ≠ 0 then ["collaborative_filtering"] else []) ++
          (if pc ≠ 0 then ["content_based_filtering"] else [])
        last_training_time := some start
        saved := true } := by
  unfold train_models
  rw [if_neg (by simp)]

/-- C7: with a recorded last training time, an unforced retrain proceeds
iff both the elapsed-time condition (at least retrain_interval_hours
hours, i.e. interval*3600 seconds) and the new-interaction-count condition
(at least min_new_interactions) hold together; neither alone suffices. -/
theorem should_retrain_iff_both_conditions
    (t now interval : Int) (new_interactions min_new : Nat) :
    should_retrain (some t) now interval new_interactions min_new = true ↔
      (interval * 3600 ≤ now - t ∧ min_new ≤ new_interactions) := by
  constructor
  · intro h
    by_cases h1 : now - t < interval * 3600
    · simp [should_retrain, h1] at h
    · by_cases h2 : new_interactions < min_new
      · simp [should_retrain, h1, h2] at h
      · exact ⟨not_lt.mp h1, not_lt.mp h2⟩
  · rintro ⟨ha, hb⟩
    simp [should_retrain, not_lt.mpr ha, not_lt.mpr hb]

/-- C8: in a forced training run the overall status is success whatever
each filter's training did (in particular under a partial failure), each
filter's try block is entered independently of whether the other filter's
training raised, and membership of an algorithm in models_trained reflects
exactly that filter's own outcome even when the other filter raised. -/
theorem train_models_forced_isolates_failures
    (should : Bool) (last : Option Int) (start : Int) (ic pc : Nat)
    (cr kr : FilterRun) :
    (train_models true should last start ic pc cr kr).status = "success"
    ∧ (train_models true should last start ic pc cr kr).attempted =
        (train_models true should last start ic pc FilterRun.raises kr).attempted
    ∧ (train_models true should last start ic pc cr FilterRun.raises).attempted =
        (train_models true should last start ic pc cr kr).attempted
    ∧ ("content_based_filtering" ∈
        (train_models true should last start ic pc FilterRun.raises kr).models_trained
        ↔ (pc ≠ 0 ∧ kr = FilterRun.completes true))
    ∧ ("collaborative_filtering" ∈
        (train_models true should last start ic pc cr FilterRun.raises).models_trained
        ↔ (ic ≠ 0 ∧ cr = FilterRun.completes true)) := by
  simp only [train_models_force_eq]
  refine ⟨trivial, trivial, trivial, ?_, ?_⟩
  · have hcnot : ¬(ic ≠ 0 ∧ FilterRun.raises = FilterRun.completes true) := by simp
    rw [if_neg hcnot]
    by_cases hB : pc ≠ 0 ∧ kr = FilterRun.completes true
    · rw [if_pos hB]
      simpa using hB
    · rw [if_neg hB]
      simpa using hB
  · have hknot : ¬(pc ≠ 0 ∧ FilterRun.raises = FilterRun.completes true) := by simp
    rw [if_neg hknot]
    by_cases hA : ic ≠ 0 ∧ cr = FilterRun.completes true
    · rw [if_pos hA]
      simpa using hA
    · rw [if_neg hA]
      simpa using hA

/-- C10: a non-skipped training run with nothing trained (empty
interaction and product data, or both filter trainings raising) still
reports status success with an empty models_trained list, sets
last_training_time to the run's start time and saves state. -/
theorem train_models_total_failure_still_success
    (force should : Bool) (last : Option Int) (start : Int) (ic pc : Nat)
    (cr kr : FilterRun)
    (hrun : force = true ∨ should = true)
    (hnone : (ic = 0 ∧ pc = 0) ∨ (cr = FilterRun.raises ∧ kr = FilterRun.raises)) :
    (train_models force should last start ic pc cr kr).status = "success"
    ∧ (train_models force should last start ic pc cr kr).models_trained = []
    ∧ (train_models force should last start ic pc cr kr).last_training_time = some start
    ∧ (train_models force should last start ic pc cr kr).saved = true := by
  have hcond : ¬ (¬ force = true ∧ ¬ should = true) := by
    rcases hrun with h | h
    · intro hc
      exact hc.1 h
    · intro hc
      exact hc.2 h
  unfold train_models
  rw [if_neg hcond]
  refine ⟨rfl, ?_, rfl, rfl⟩
  rcases hnone with ⟨hic, hpc⟩ | ⟨hcr, hkr⟩
  · have h1 : ¬(ic ≠ 0 ∧ cr = FilterRun.completes true) := by simp [hic]
    have h2 : ¬(pc ≠ 0 ∧ kr = FilterRun.completes true) := by simp [hpc]
    rw [if_neg h1, if_neg h2]
    rfl
  · have h1 : ¬(ic ≠ 0 ∧ cr = FilterRun.completes true) := by simp [hcr]
    have h2 : ¬(pc ≠ 0 ∧ kr = FilterRun.completes true) := by simp [hkr]
    rw [if_neg h1, if_neg h2]
    rfl

/-- Witness for C10 at a concrete forced run with no data. -/
theorem train_models_total_failure_still_success_witness :
    ((true : Bool) = true ∨ (false : Bool) = true)
    ∧ ((0 = 0 ∧ 0 = 0) ∨ (FilterRun.raises = FilterRun.raises ∧ FilterRun.raises = FilterRun.raises))
    ∧ ((train_models true false none 7 0 0 FilterRun.raises FilterRun.raises).status = "success"
      ∧ (train_models true false none 7 0 0 FilterRun.raises FilterRun.raises).models_trained = []
      ∧ (train_models true false none 7 0 0 FilterRun.raises FilterRun.raises).last_training_time = some 7
      ∧ (train_models true false none 7 0 0 FilterRun.raises FilterRun.raises).saved = true) :=
  ⟨Or.inl rfl, Or.inl ⟨rfl, rfl⟩,
    train_models_total_failure_still_success true false none 7 0 0
      FilterRun.raises FilterRun.raises (Or.inl rfl) (Or.inl ⟨rfl, rfl⟩)⟩


/-- C1 (code bug): the scoring loop of prepare_data iterates only the
FIRST row's interactionTypes list, so the second record of scoresEx
(types [purchase], absent from the first row's list) is scored 0 where
the documented rule (sum of weights over the row's own distinct types,
count fallback when empty) gives 3; the fillna fallback can never fire
since the score column is initialised to 0, not null.  The two columns
on the same input. -/
theorem prepare_data_first_row_scoring_bug :
    interactionScores scoresEx = [1, 0]
    ∧ scoresEx.map specRowScore = [1, 3]
    ∧ interactionScores scoresEx ≠ scoresEx.map specRowScore :=
  ⟨by with_unfolding_all rfl, by with_unfolding_all rfl,
   of_decide_eq_true (by with_unfolding_all rfl)⟩

/-- C2 counterexample: a previously trained collaborative filter, an
injected unexpected failure at the similarity computation: the call
raises, but the state is not left as it was - the is_trained flag is
cleared and the user-item matrix has already been replaced by the newly
pivoted one. -/
theorem cfTrain_failure_mutates_previous_state :
    cfPrevState.is_trained = true
    ∧ cfPrevState.user_item_matrix = some [[1]]
    ∧ (cfTrain cfPrevState 5 interactionsEx true).2 = true
    ∧ (cfTrain cfPrevState 5 interactionsEx true).1.is_trained = false
    ∧ (cfTrain cfPrevState 5 interactionsEx true).1.user_item_matrix =
        some [[0], [5]] := by
  refine ⟨rfl, rfl, ?_, ?_, ?_⟩ <;> with_unfolding_all rfl

/-- C2 amended: for either filter, an unexpected error during similarity
computation propagates to the caller, but the previous trained state is
only partially preserved: the is_trained flag is forced to false and the
components rebuilt before the failure point (user-item matrix / feature
matrix and the index maps) already hold the new values; the similarity
matrix alone keeps its previous value. -/
theorem train_failure_clears_flag_keeps_similarity
    (s : CFTrainState) (minI : ℚ) (ints : List IRecord)
    (t : CBTrainState) (pids : List String)
    (featuresOf : List String → List (List ℚ))
    (hdf : (prepare_data minI ints).isEmpty = false)
    (hmx : (create_user_item_matrix (prepare_data minI ints)).2.2.isEmpty = false)
    (hp : pids.isEmpty = false)
    (hf : (featuresOf pids).isEmpty = false) :
    (cfTrain s minI ints true).2 = true
    ∧ (cfTrain s minI ints true).1.is_trained = false
    ∧ (cfTrain s minI ints true).1.sim_source = s.sim_source
    ∧ (cfTrain s minI ints true).1.user_item_matrix =
        some (create_user_item_matrix (prepare_data minI ints)).2.2
    ∧ (cbTrain t pids featuresOf true).2 = true
    ∧ (cbTrain t pids featuresOf true).1.is_trained = false
    ∧ (cbTrain t pids featuresOf true).1.sim_source = t.sim_source
    ∧ (cbTrain t pids featuresOf true).1.product_features =
        some (featuresOf pids) := by
  simp [cfTrain, cbTrain, hdf, hmx, hp, hf]

/-- Witness for the amended C2 at concrete inputs reaching the failure
point in both filters. -/
theorem train_failure_clears_flag_keeps_similarity_witness :
    ((prepare_data 5 interactionsEx).isEmpty = false)
    ∧ ((create_user_item_matrix (prepare_data 5 interactionsEx)).2.2.isEmpty = false)
    ∧ ((["px"] : List String).isEmpty = false)
    ∧ (((fun l : List String => l.map (fun _ => [(1 : ℚ)])) ["px"]).isEmpty = false)
    ∧ ((cfTrain cfPrevState 5 interactionsEx true).2 = true
      ∧ (cfTrain cfPrevState 5 interactionsEx true).1.is_trained = false
      ∧ (cfTrain cfPrevState 5 interactionsEx true).1.sim_source = cfPrevState.sim_source
      ∧ (cfTrain cfPrevState 5 interactionsEx true).1.user_item_matrix =
          some (create_user_item_matrix (prepare_data 5 interactionsEx)).2.2
      ∧ (cbTrain cbPrevState ["px"] (fun l => l.map (fun _ => [(1 : ℚ)])) true).2 = true
      ∧ (cbTrain cbPrevState ["px"] (fun l => l.map (fun _ => [(1 : ℚ)])) true).1.is_trained = false
      ∧ (cbTrain cbPrevState ["px"] (fun l => l.map (fun _ => [(1 : ℚ)])) true).1.sim_source =
          cbPrevState.sim_source
      ∧ (cbTrain cbPrevState ["px"] (fun l => l.map (fun _ => [(1 : ℚ)])) true).1.product_features =
          some ((fun l : List String => l.map (fun _ => [(1 : ℚ)])) ["px"])) :=
  ⟨by with_unfolding_all rfl, by with_unfolding_all rfl, rfl, rfl,
   train_failure_clears_flag_keeps_similarity cfPrevState 5 interactionsEx
     cbPrevState ["px"] (fun l => l.map (fun _ => [(1 : ℚ)]))
     (by with_unfolding_all rfl) (by with_unfolding_all rfl) rfl rfl⟩

/-- C9 counterexample: training succeeds on interactionsEx, storing the
user-item matrix [[0],[5]] whose first row (user A) is all zero; the
cosine similarity diagonal entry of that row is 0, not 1. -/
theorem cfTrain_zero_row_zero_diagonal :
    (cfTrain cfFreshState 5 interactionsEx false).1.is_trained = true
    ∧ (cfTrain cfFreshState 5 interactionsEx false).1.sim_source = some [[0], [5]]
    ∧ entryR (simMatrix [[0], [5]]) 0 0 = 0
    ∧ (0 : ℝ) ≠ 1 := by
  refine ⟨by with_unfolding_all rfl, by with_unfolding_all rfl, ?_, by norm_num⟩
  have h0 : dotQ [(0 : ℚ)] [(0 : ℚ)] = 0 := by norm_num [dotQ]
  have hrow : (([[(0 : ℚ)], [5]] : List (List ℚ)).getD 0 []) = [0] := rfl
  rw [entryR_simMatrix (by norm_num) (by norm_num), hrow]
  exact simQ_self_zero h0

/-- C9 amended: after a successful collaborative training run the
similarity matrix (cosine similarity over the rows of the stored
matrix) is square and symmetric; a diagonal entry equals 1 exactly when
its row is not all-zero, and equals 0 for an all-zero row. -/
theorem trained_similarity_square_symmetric_diagonal
    (s : CFTrainState) (minI : ℚ) (ints : List IRecord) (mat : List (List ℚ))
    (_ht : (cfTrain s minI ints false).1.is_trained = true)
    (_hsrc : (cfTrain s minI ints false).1.sim_source = some mat) :
    (simMatrix mat).length = mat.length
    ∧ (∀ row ∈ simMatrix mat, row.length = mat.length)
    ∧ (∀ i j, entryR (simMatrix mat) i j = entryR (simMatrix mat) j i)
    ∧ (∀ i, i < mat.length → dotQ (mat.getD i []) (mat.getD i []) ≠ 0 →
        entryR (simMatrix mat) i i = 1)
    ∧ (∀ i, i < mat.length → dotQ (mat.getD i []) (mat.getD i []) = 0 →
        entryR (simMatrix mat) i i = 0) := by
  refine ⟨by simp [simMatrix], ?_, ?_, ?_, ?_⟩
  · intro row hrow
    simp only [simMatrix, List.mem_map] at hrow
    obtain ⟨x, _hx, hrow⟩ := hrow
    rw [← hrow]
    simp
  · intro i j
    rcases lt_or_ge i mat.length with hi | hi
    · rcases lt_or_ge j mat.length with hj | hj
      · rw [entryR_simMatrix hi hj, entryR_simMatrix hj hi, simQ_comm]
      · rw [entryR_simMatrix_right_oob hj, entryR_simMatrix_left_oob hj]
    · rcases lt_or_ge j mat.length with hj | hj
      · rw [entryR_simMatrix_left_oob hi, entryR_simMatrix_right_oob hi]
      · rw [entryR_simMatrix_left_oob hi, entryR_simMatrix_left_oob hj]
  · intro i hi hne
    rw [entryR_simMatrix hi hi]
    exact simQ_self_one hne
  · intro i hi h0
    rw [entryR_simMatrix hi hi]
    exact simQ_self_zero h0

/-- Witness for the amended C9: the nonzero row of the trained matrix
[[0],[5]] has unit diagonal similarity. -/
theorem trained_similarity_diagonal_witness :
    ((cfTrain cfFreshState 5 interactionsEx false).1.is_trained = true)
    ∧ ((cfTrain cfFreshState 5 interactionsEx false).1.sim_source = some [[0], [5]])
    ∧ (1 < ([[(0 : ℚ)], [5]] : List (List ℚ)).length)
    ∧ (dotQ (([[(0 : ℚ)], [5]] : List (List ℚ)).getD 1 [])
        (([[(0 : ℚ)], [5]] : List (List ℚ)).getD 1 []) ≠ 0)
    ∧ entryR (simMatrix [[0], [5]]) 1 1 = 1 :=
  ⟨by with_unfolding_all rfl, by with_unfolding_all rfl, by norm_num,
   by norm_num [dotQ],
   (trained_similarity_square_symmetric_diagonal cfFreshState 5 interactionsEx
      [[0], [5]] (by with_unfolding_all rfl) (by with_unfolding_all rfl)).2.2.2.1
     1 (by norm_num) (by norm_num [dotQ])⟩

/-- C6 counterexample: with a duplicate product whose feature row is
identical (similarity row ties at the maximum), skipping only the
top-ranked entry returns the query product itself. -/
theorem get_similar_products_returns_self_on_tied_max :
    cbModelTie.is_trained = true
    ∧ get_similar_products cbModelTie "q0" 1 = [("q0", 1)] :=
  ⟨rfl, by with_unfolding_all rfl⟩

/-- C6 amended: get_similar_products never returns the query product
itself PROVIDED the query product's self-similarity entry is strictly
greater than every other entry of its similarity row (the exclusion is
positional - the single top-ranked index is skipped - so under a tie at
the maximum the product itself can be returned). -/
theorem get_similar_products_excludes_self_of_strict_max
    (m : CBModel) (pid : String) (n : Nat) (idx : Nat) (s : ℚ)
    (ht : m.is_trained = true)
    (hlookup : m.product_index_map.lookup pid = some idx)
    (hpid : m.products[idx]? = some pid)
    (hnodup : m.products.Nodup)
    (hlen : (m.product_similarity_matrix.getD idx []).length = m.products.length)
    (hmax : ∀ j, j < (m.product_similarity_matrix.getD idx []).length →
      j ≠ idx → getQ (m.product_similarity_matrix.getD idx []) j <
        getQ (m.product_similarity_matrix.getD idx []) idx) :
    (pid, s) ∉ get_similar_products m pid n := by
  intro hmem
  obtain ⟨hidxlt, hpidx⟩ := List.getElem?_eq_some.mp hpid
  have hidx : idx < (m.product_similarity_matrix.getD idx []).length := by
    rw [hlen] ; exact hidxlt
  simp only [get_similar_products, ht, hlookup] at hmem
  rw [if_neg (by simp)] at hmem
  obtain ⟨rest, hrev, hnot, hrange⟩ :=
    argsortAsc_reverse_strict_max (m.product_similarity_matrix.getD idx [])
      idx hidx hmax
  rw [hrev] at hmem
  simp only [List.drop_succ_cons, List.drop_zero, List.mem_map] at hmem
  obtain ⟨j, hj, heq⟩ := hmem
  have hjrest : j ∈ rest := List.mem_of_mem_take hj
  have hjlt : j < m.products.length := by
    rw [← hlen] ; exact hrange j hjrest
  have hne : j ≠ idx := fun h => hnot (h ▸ hjrest)
  have hfst : m.products.getD j "" = pid := congrArg Prod.fst heq
  rw [List.getD_eq_getElem _ _ hjlt] at hfst
  have hj2 : m.products.indexOf pid = j := by
    rw [← hfst] ; exact List.indexOf_getElem hnodup j hjlt
  have hi2 : m.products.indexOf pid = idx := by
    rw [← hpidx] ; exact List.indexOf_getElem hnodup idx hidxlt
  exact hne (hj2 ▸ hi2 ▸ rfl)

/-- Witness for the amended C6 at a strict-maximum similarity row. -/
theorem get_similar_products_excludes_self_witness :
    cbModelStrict.is_trained = true
    ∧ cbModelStrict.product_index_map.lookup "q0" = some 0
    ∧ cbModelStrict.products[0]? = some "q0"
    ∧ cbModelStrict.products.Nodup
    ∧ (cbModelStrict.product_similarity_matrix.getD 0 []).length =
        cbModelStrict.products.length
    ∧ (∀ j, j < (cbModelStrict.product_similarity_matrix.getD 0 []).length →
        j ≠ 0 → getQ (cbModelStrict.product_similarity_matrix.getD 0 []) j <
          getQ (cbModelStrict.product_similarity_matrix.getD 0 []) 0)
    ∧ ("q0", (1 : ℚ)) ∉ get_similar_products cbModelStrict "q0" 1 :=
  ⟨rfl, by with_unfolding_all rfl, rfl, by decide, rfl,
   of_decide_eq_true (by with_unfolding_all rfl),
   get_similar_products_excludes_self_of_strict_max cbModelStrict "q0" 1 0 1
     rfl (by with_unfolding_all rfl) rfl (by decide) rfl
     (of_decide_eq_true (by with_unfolding_all rfl))⟩

/-- Evaluation of get_user_recommendations once trained and the user is
found. -/
theorem get_user_recommendations_eq (m : CFModel) (uid : String) (n : Nat)
    (u : Nat) (ht : m.is_trained = true)
    (hu : m.user_index_map.lookup uid = some u) :
    get_user_recommendations m uid n =
      (((argsortAsc (cfScores m u)).reverse).take n).filterMap
        (fun j => if 0 < getQ (cfScores m u) j then
            some (m.items.getD j "", getQ (cfScores m u) j)
          else none) := by
  simp [get_user_recommendations, ht, hu]

/-- Every emitted pair comes from an in-range column with strictly
positive accumulated score. -/
theorem mem_get_user_recommendations
    {m : CFModel} {uid : String} {n : Nat} {u : Nat} {x : String × ℚ}
    (ht : m.is_trained = true) (hu : m.user_index_map.lookup uid = some u)
    (hx : x ∈ get_user_recommendations m uid n) :
    ∃ j, j < (m.user_item_matrix.headD []).length ∧ 0 < cfScore m u j ∧
      x = (m.items.getD j "", cfScore m u j) := by
  rw [get_user_recommendations_eq m uid n u ht hu] at hx
  rw [List.mem_filterMap] at hx
  obtain ⟨j, _hj, hfj⟩ := hx
  by_cases hpos : 0 < getQ (cfScores m u) j
  · rw [if_pos hpos] at hfj
    have hjlt : j < (m.user_item_matrix.headD []).length := by
      have h := getQ_pos_lt hpos
      simpa [cfScores] using h
    have hq : getQ (cfScores m u) j = cfScore m u j := by
      have h := getQ_map_range (cfScore m u) _ j hjlt
      simpa [cfScores] using h
    refine ⟨j, hjlt, by rwa [hq] at hpos, ?_⟩
    rw [← Option.some_inj.mp hfj, hq]
  · rw [if_neg hpos] at hfj
    exact absurd hfj (by simp)

/-- The score list length equals the item count whenever it is nonzero
(the matrix rows all have the item count as width). -/
theorem cfScores_length_eq {m : CFModel} {u : Nat}
    (hrows : ∀ r ∈ m.user_item_matrix, r.length = m.items.length)
    (hpos : 0 < (cfScores m u).length) :
    (cfScores m u).length = m.items.length := by
  have hlen : (cfScores m u).length = (m.user_item_matrix.headD []).length := by
    simp [cfScores]
  rw [hlen] at hpos ⊢
  cases hm : m.user_item_matrix with
  | nil => rw [hm] at hpos ; simp at hpos
  | cons r t =>
    apply hrows
    rw [hm]
    exact List.mem_cons_self r t

/-- C4: get_user_recommendations never returns a product the user has
already interacted with: a column with a positive entry in the user's
row has its accumulated score forced to 0, and only strictly positive
scores are emitted. -/
theorem get_user_recommendations_excludes_interacted
    (m : CFModel) (uid : String) (n : Nat) (u j : Nat) (s : ℚ)
    (ht : m.is_trained = true)
    (hu : m.user_index_map.lookup uid = some u)
    (hnodup : m.items.Nodup)
    (hrows : ∀ r ∈ m.user_item_matrix, r.length = m.items.length)
    (hj : j < m.items.length)
    (hint : 0 < getQ (m.user_item_matrix.getD u []) j) :
    (m.items.getD j "", s) ∉ get_user_recommendations m uid n := by
  intro hmem
  obtain ⟨j2, hj2lt, hpos, heq⟩ := mem_get_user_recommendations ht hu hmem
  have hmatne : m.user_item_matrix ≠ [] := by
    intro hnil
    rw [hnil] at hj2lt
    simp at hj2lt
  have hhead : m.user_item_matrix.headD [] ∈ m.user_item_matrix := by
    cases hm : m.user_item_matrix with
    | nil => exact absurd hm hmatne
    | cons r t => exact List.mem_cons_self r t
  have hlen : (m.user_item_matrix.headD []).length = m.items.length :=
    hrows _ hhead
  have hj2 : j2 < m.items.length := hlen ▸ hj2lt
  have hids : m.items.getD j2 "" = m.items.getD j "" :=
    (congrArg Prod.fst heq).symm
  rw [List.getD_eq_getElem _ _ hj2, List.getD_eq_getElem _ _ hj] at hids
  have h1 := List.indexOf_getElem hnodup j2 hj2
  have h2 := List.indexOf_getElem hnodup j hj
  rw [hids] at h1
  have hjj : j2 = j := by rw [← h1, h2]
  rw [hjj] at hpos
  have hzero : cfScore m u j = 0 := by
    unfold cfScore
    rw [if_pos hint]
  rw [hzero] at hpos
  exact lt_irrefl 0 hpos

/-- Witness for C4 at a model where user u0 interacted with column 0. -/
theorem get_user_recommendations_excludes_interacted_witness :
    cfModelEx.is_trained = true
    ∧ cfModelEx.user_index_map.lookup "u0" = some 0
    ∧ cfModelEx.items.Nodup
    ∧ (∀ r ∈ cfModelEx.user_item_matrix, r.length = cfModelEx.items.length)
    ∧ 0 < cfModelEx.items.length
    ∧ 0 < getQ (cfModelEx.user_item_matrix.getD 0 []) 0
    ∧ (cfModelEx.items.getD 0 "", (3 / 4 : ℚ)) ∉
        get_user_recommendations cfModelEx "u0" 10 :=
  ⟨rfl, by with_unfolding_all rfl, by decide, by decide, by decide,
   of_decide_eq_true (by with_unfolding_all rfl),
   get_user_recommendations_excludes_interacted cfModelEx "u0" 10 0 0 (3 / 4)
     rfl (by with_unfolding_all rfl) (by decide) (by decide) (by decide)
     (of_decide_eq_true (by with_unfolding_all rfl))⟩

/-- C5 counterexample: two candidate items tie at score 3/4; the output
lists column 2 before column 1, i.e. REVERSED matrix column order, so the
claimed ties-in-original-column-order property fails. -/
theorem get_user_recommendations_tie_order_reversed :
    get_user_recommendations cfModelEx "u0" 10 = [("p2", 3 / 4), ("p1", 3 / 4)]
    ∧ cfModelEx.items.indexOf "p1" < cfModelEx.items.indexOf "p2"
    ∧ ¬ List.Pairwise (fun a b => b.2 < a.2 ∨
        (a.2 = b.2 ∧ cfModelEx.items.indexOf a.1 < cfModelEx.items.indexOf b.1))
        (get_user_recommendations cfModelEx "u0" 10) :=
  ⟨by with_unfolding_all rfl, by decide,
   of_decide_eq_true (by with_unfolding_all rfl)⟩

/-- C5 amended: for a trained model and known user the output has at
most n pairs, every score is strictly positive and the list is ordered
by strictly descending score except that ties between equal scores come
out in REVERSED matrix column order (the code reverses a stable
ascending argsort, so among equal scores the larger column index comes
first). -/
theorem get_user_recommendations_sorted_reversed_ties
    (m : CFModel) (uid : String) (n : Nat) (u : Nat)
    (ht : m.is_trained = true)
    (hu : m.user_index_map.lookup uid = some u)
    (hnodup : m.items.Nodup)
    (hrows : ∀ r ∈ m.user_item_matrix, r.length = m.items.length) :
    (get_user_recommendations m uid n).length ≤ n
    ∧ (∀ x ∈ get_user_recommendations m uid n, 0 < x.2)
    ∧ List.Pairwise (fun a b => b.2 < a.2 ∨
        (b.2 = a.2 ∧ m.items.indexOf b.1 < m.items.indexOf a.1))
        (get_user_recommendations m uid n) := by
  rw [get_user_recommendations_eq m uid n u ht hu]
  refine ⟨?_, ?_, ?_⟩
  · exact le_trans (List.length_filterMap_le _ _) (List.length_take_le _ _)
  · intro x hx
    rw [List.mem_filterMap] at hx
    obtain ⟨j, _hj, hfj⟩ := hx
    by_cases hpos : 0 < getQ (cfScores m u) j
    · rw [if_pos hpos] at hfj
      rw [← Option.some_inj.mp hfj]
      exact hpos
    · rw [if_neg hpos] at hfj
      exact absurd hfj (by simp)
  · have h1 : List.Pairwise (fun a b => lexLe (cfScores m u) b a)
        (argsortAsc (cfScores m u)).reverse :=
      List.pairwise_reverse.mpr (argsortAsc_sorted (cfScores m u))
    have h2 : List.Pairwise (fun a b : Nat => a ≠ b)
        (argsortAsc (cfScores m u)).reverse :=
      List.nodup_reverse.mpr (argsortAsc_nodup (cfScores m u))
    have h3 := h1.and h2
    have h4 := List.Pairwise.sublist (List.take_sublist n _) h3
    apply List.pairwise_filterMap.mpr
    apply h4.imp
    intro a b hab
    rcases hab with ⟨hlex, hne⟩
    intro x hx y hy
    by_cases hpa : 0 < getQ (cfScores m u) a
    swap
    · rw [if_neg hpa] at hx
      exact absurd hx (by simp)
    by_cases hpb : 0 < getQ (cfScores m u) b
    swap
    · rw [if_neg hpb] at hy
      exact absurd hy (by simp)
    rw [if_pos hpa] at hx
    rw [if_pos hpb] at hy
    rw [Option.mem_def, Option.some_inj] at hx hy
    rw [← hx, ← hy]
    rcases lexLe_strict hlex (Ne.symm hne) with hlt | ⟨heq, hblt⟩
    · exact Or.inl hlt
    · refine Or.inr ⟨heq, ?_⟩
      have halt : a < (cfScores m u).length := getQ_pos_lt hpa
      have hblt2 : b < (cfScores m u).length := getQ_pos_lt hpb
      have hSlen : (cfScores m u).length = m.items.length :=
        cfScores_length_eq hrows (lt_of_le_of_lt (Nat.zero_le a) halt)
      have ha2 : a < m.items.length := hSlen ▸ halt
      have hb2 : b < m.items.length := hSlen ▸ hblt2
      rw [List.getD_eq_getElem _ _ ha2, List.getD_eq_getElem _ _ hb2]
      rw [List.indexOf_getElem hnodup a ha2, List.indexOf_getElem hnodup b hb2]
      exact hblt

/-- Witness for the amended C5 at cfModelEx and user u0. -/
theorem get_user_recommendations_sorted_witness :
    cfModelEx.is_trained = true
    ∧ cfModelEx.user_index_map.lookup "u0" = some 0
    ∧ cfModelEx.items.Nodup
    ∧ (∀ r ∈ cfModelEx.user_item_matrix, r.length = cfModelEx.items.length)
    ∧ ((get_user_recommendations cfModelEx "u0" 10).length ≤ 10
      ∧ (∀ x ∈ get_user_recommendations cfModelEx "u0" 10, 0 < x.2)
      ∧ List.Pairwise (fun a b => b.2 < a.2 ∨
          (b.2 = a.2 ∧ cfModelEx.items.indexOf b.1 < cfModelEx.items.indexOf a.1))
          (get_user_recommendations cfModelEx "u0" 10)) :=
  ⟨rfl, by with_unfolding_all rfl, by decide, by decide,
   get_user_recommendations_sorted_reversed_ties cfModelEx "u0" 10 0
     rfl (by with_unfolding_all rfl) (by decide) (by decide)⟩

/-! Grouping-pass lemmas for the hybrid combination. -/

theorem extendG_nil (g : Grouped) : extendG g [] = g := by
  simp [extendG]

theorem extendG_updateG (g : Grouped) (c : Cand) (cs : List Cand) :
    extendG (updateG g c) cs = extendG g (c :: cs) := by
  simp [extendG, updateG, add_assoc]

theorem extendG_newG (c : Cand) (cs : List Cand) :
    extendG (newG c) cs = extendG ⟨c.productId, 0, [], []⟩ (c :: cs) := by
  simp [extendG, newG, add_assoc]

theorem find?_pid_map_update (acc : List Grouped) (c : Cand) (p : String) :
    (acc.map (fun g => if g.productId == c.productId then updateG g c else g)).find?
        (fun g => g.productId == p) =
      (acc.find? (fun g => g.productId == p)).map
        (fun g => if g.productId == c.productId then updateG g c else g) := by
  induction acc with
  | nil => rfl
  | cons g t ih =>
    have hpid : (if g.productId == c.productId then updateG g c else g).productId =
        g.productId := by
      split_ifs <;> rfl
    by_cases hp : (g.productId == p) = true
    · rw [List.map_cons]
      simp only [List.find?, hpid, hp]
      rfl
    · have hpf : (g.productId == p) = false := by simpa using hp
      rw [List.map_cons]
      simp only [List.find?, hpid, hpf]
      exact ih

theorem find?_addCand_eq (acc : List Grouped) (c : Cand) :
    (addCand acc c).find? (fun g => g.productId == c.productId) =
      match acc.find? (fun g => g.productId == c.productId) with
      | some g => some (updateG g c)
      | none => some (newG c) := by
  unfold addCand
  by_cases hany : (acc.any (fun g => g.productId == c.productId)) = true
  · rw [if_pos hany, find?_pid_map_update]
    have hsome : ∃ g, acc.find? (fun g => g.productId == c.productId) = some g := by
      rw [← Option.isSome_iff_exists, List.find?_isSome]
      exact List.any_eq_true.mp hany
    obtain ⟨g, hgeq⟩ := hsome
    rw [hgeq, Option.map_some']
    have hgc0 := List.find?_some hgeq
    have hgc : (g.productId == c.productId) = true := hgc0
    rw [if_pos hgc]
  · rw [if_neg hany, List.find?_append]
    have hnone : acc.find? (fun g => g.productId == c.productId) = none := by
      rw [List.find?_eq_none]
      intro x hx hpx
      exact hany (List.any_eq_true.mpr ⟨x, hx, hpx⟩)
    rw [hnone]
    have hnew : List.find? (fun g => g.productId == c.productId) [newG c] =
        some (newG c) :=
      List.find?_cons_of_pos _ (by simp [newG])
    rw [hnew]
    rfl

theorem find?_addCand_ne (acc : List Grouped) (c : Cand) (p : String)
    (hne : c.productId ≠ p) :
    (addCand acc c).find? (fun g => g.productId == p) =
      acc.find? (fun g => g.productId == p) := by
  unfold addCand
  by_cases hany : (acc.any (fun g => g.productId == c.productId)) = true
  · rw [if_pos hany, find?_pid_map_update]
    cases hfind : acc.find? (fun g => g.productId == p) with
    | none => rfl
    | some g =>
      rw [Option.map_some']
      have hgp : g.productId = p := by
        have h0 := List.find?_some hfind
        have h1 : (g.productId == p) = true := h0
        exact beq_iff_eq.mp h1
      have hgc : (g.productId == c.productId) = false := by
        rw [beq_eq_false_iff_ne, hgp]
        exact fun h => hne h.symm
      rw [hgc]
      rfl
  · rw [if_neg hany, List.find?_append]
    have hlast : List.find? (fun g => g.productId == p) [newG c] = none := by
      rw [List.find?_cons_of_neg _ (by simpa [newG] using hne), List.find?_nil]
    rw [hlast]
    cases acc.find? (fun g => g.productId == p) <;> rfl

theorem find?_foldl_addCand (p : String) :
    ∀ (cs : List Cand) (acc : List Grouped),
      ((cs.foldl addCand acc).find? (fun g => g.productId == p)) =
        match acc.find? (fun g => g.productId == p) with
        | some g => some (extendG g (cs.filter (fun c => c.productId == p)))
        | none =>
          match cs.filter (fun c => c.productId == p) with
          | [] => none
          | c2 :: rest => some (extendG ⟨p, 0, [], []⟩ (c2 :: rest))
  | [], acc => by
      cases hfind : acc.find? (fun g => g.productId == p) with
      | none => simp [hfind]
      | some g => simp [hfind, extendG_nil]
  | c :: cs, acc => by
      rw [List.foldl_cons, find?_foldl_addCand p cs (addCand acc c)]
      by_cases hcp : c.productId = p
      · subst hcp
        rw [find?_addCand_eq]
        have hfc : (c :: cs).filter (fun x => x.productId == c.productId) =
            c :: cs.filter (fun x => x.productId == c.productId) :=
          List.filter_cons_of_pos (by simp)
        rw [hfc]
        cases hfind : acc.find? (fun g => g.productId == c.productId) with
        | some g =>
          dsimp only
          rw [extendG_updateG]
        | none =>
          dsimp only
          rw [extendG_newG]
      · have hcpb : (c.productId == p) = false := beq_eq_false_iff_ne.mpr hcp
        have hfc : (c :: cs).filter (fun x => x.productId == p) =
            cs.filter (fun x => x.productId == p) :=
          List.filter_cons_of_neg (by simp [hcpb])
        rw [find?_addCand_ne acc c p hcp, hfc]

theorem groupCands_find? (recs : List Cand) (p : String) :
    (groupCands recs).find? (fun g => g.productId == p) =
      match recs.filter (fun c => c.productId == p) with
      | [] => none
      | c :: rest => some (extendG ⟨p, 0, [], []⟩ (c :: rest)) := by
  unfold groupCands
  rw [find?_foldl_addCand]
  rfl

theorem addCand_keys_nodup {acc : List Grouped} (c : Cand)
    (h : (acc.map (fun g => g.productId)).Nodup) :
    ((addCand acc c).map (fun g => g.productId)).Nodup := by
  unfold addCand
  by_cases hany : (acc.any (fun g => g.productId == c.productId)) = true
  · rw [if_pos hany]
    have hkeys : (acc.map (fun g =>
        if g.productId == c.productId then updateG g c else g)).map
          (fun g => g.productId) = acc.map (fun g => g.productId) := by
      rw [List.map_map]
      apply List.map_congr_left
      intro g _
      simp only [Function.comp]
      split_ifs <;> rfl
    rw [hkeys]
    exact h
  · rw [if_neg hany]
    have hnotin : c.productId ∉ acc.map (fun g => g.productId) := by
      intro hmem
      rw [List.mem_map] at hmem
      obtain ⟨g, hg, hpg⟩ := hmem
      exact hany (List.any_eq_true.mpr ⟨g, hg, by simp [hpg]⟩)
    have hkeys : (acc ++ [newG c]).map (fun g => g.productId) =
        acc.map (fun g => g.productId) ++ [c.productId] := by
      simp [newG]
    rw [hkeys, List.nodup_append]
    exact ⟨h, List.nodup_singleton _, List.disjoint_singleton.mpr hnotin⟩

theorem foldl_addCand_keys_nodup :
    ∀ (cs : List Cand) (acc : List Grouped),
      (acc.map (fun g => g.productId)).Nodup →
      ((cs.foldl addCand acc).map (fun g => g.productId)).Nodup
  | [], _, h => h
  | c :: cs, acc, h => by
      rw [List.foldl_cons]
      exact foldl_addCand_keys_nodup cs (addCand acc c) (addCand_keys_nodup c h)

theorem groupCands_keys_nodup (recs : List Cand) :
    ((groupCands recs).map (fun g => g.productId)).Nodup :=
  foldl_addCand_keys_nodup recs [] (by simp)

theorem filter_eq_singleton_of_find? :
    ∀ (l : List Grouped) (p : String) (g : Grouped),
      ((l.map (fun x => x.productId)).Nodup) →
      l.find? (fun x => x.productId == p) = some g →
      l.filter (fun x => x.productId == p) = [g]
  | [], p, g, _, hfind => by simp at hfind
  | a :: t, p, g, hnd, hfind => by
      rw [List.map_cons, List.nodup_cons] at hnd
      by_cases hp : (a.productId == p) = true
      · simp only [List.find?, hp] at hfind
        have hag : a = g := Option.some_inj.mp hfind
        simp only [List.filter, hp]
        have htnil : t.filter (fun x => x.productId == p) = [] := by
          rw [List.filter_eq_nil_iff]
          intro x hx hpx
          apply hnd.1
          rw [List.mem_map]
          refine ⟨x, hx, ?_⟩
          rw [beq_iff_eq] at hp hpx
          rw [hpx, hp]
        rw [htnil, hag]
      · have hpf : (a.productId == p) = false := by simpa using hp
        simp only [List.find?, hpf] at hfind
        simp only [List.filter, hpf]
        exact filter_eq_singleton_of_find? t p g hnd.2 hfind

theorem sortGrouped_perm (l : List Grouped) : (sortGrouped l).Perm l :=
  List.perm_insertionSort _ _

theorem sortGrouped_sorted (l : List Grouped) :
    List.Pairwise (fun a b : Grouped => b.total_score ≤ a.total_score)
      (sortGrouped l) := by
  haveI ht : IsTotal Grouped (fun a b => b.total_score ≤ a.total_score) :=
    ⟨fun a b => le_total b.total_score a.total_score⟩
  haveI hr : IsTrans Grouped (fun a b => b.total_score ≤ a.total_score) :=
    ⟨fun _ _ _ h1 h2 => le_trans h2 h1⟩
  exact List.sorted_insertionSort _ _

/-- C3 counterexample: both filters propose p7 (score 1 each) but a
third candidate p1 outscores the merged p7 entry; with limit 1 the
truncation drops p7 entirely, so the final list does NOT contain an
entry for the doubly-proposed product. -/
theorem hybridCombine_truncation_drops_shared_product :
    candsEx.filter (fun c => c.productId == "p7") =
      [⟨"p7", 1, "collaborative_filtering",
        "Users with similar preferences also liked this"⟩,
       ⟨"p7", 1, "content_based_filtering",
        "Based on products you have viewed"⟩]
    ∧ (hybridCombine candsEx 1).filter (fun h => h.productId == "p7") = [] :=
  ⟨by with_unfolding_all rfl, by with_unfolding_all rfl⟩

/-- C3 amended: in hybrid mode, when the two filters both propose
product p (as its only occurrences among the candidates) and the
requested limit is at least the number of distinct candidate products
(so the merged entry survives truncation), the final list carries
exactly one entry for p, tagged hybrid, with score the sum of the two
scores and the contributing algorithms listing both sources; and the
final list is ordered by summed score descending. -/
theorem hybridCombine_merges_shared_product
    (recs : List Cand) (limit : Nat) (p : String) (s1 s2 : ℚ) (r1 r2 : String)
    (hfilter : recs.filter (fun c => c.productId == p) =
      [⟨p, s1, "collaborative_filtering", r1⟩,
       ⟨p, s2, "content_based_filtering", r2⟩])
    (hlimit : (groupCands recs).length ≤ limit) :
    (hybridCombine recs limit).filter (fun h => h.productId == p) =
      [⟨p, s1 + s2, "hybrid", "Recommended by multiple algorithms",
        ["collaborative_filtering", "content_based_filtering"]⟩]
    ∧ List.Pairwise (fun a b => b.score ≤ a.score) (hybridCombine recs limit) := by
  have hfind : (groupCands recs).find? (fun g => g.productId == p) =
      some ⟨p, s1 + s2,
        ["collaborative_filtering", "content_based_filtering"], [r1, r2]⟩ := by
    rw [groupCands_find?, hfilter]
    simp [extendG]
  have hnd := groupCands_keys_nodup recs
  have hfilterG := filter_eq_singleton_of_find? (groupCands recs) p _ hnd hfind
  have hsortfilter : (sortGrouped (groupCands recs)).filter
      (fun g => g.productId == p) =
      [⟨p, s1 + s2,
        ["collaborative_filtering", "content_based_filtering"], [r1, r2]⟩] := by
    have hperm := (sortGrouped_perm (groupCands recs)).filter
      (fun g => g.productId == p)
    rw [hfilterG] at hperm
    exact List.perm_singleton.mp hperm
  have htake : (sortGrouped (groupCands recs)).take limit =
      sortGrouped (groupCands recs) := by
    apply List.take_of_length_le
    unfold sortGrouped
    rw [List.length_insertionSort]
    exact hlimit
  constructor
  · unfold hybridCombine
    rw [htake, List.filter_map]
    have hpred : ((fun h : HybridRec => h.productId == p) ∘
        (fun q : Grouped => { productId := q.productId
                              score := q.total_score
                              algorithm := "hybrid"
                              reason := "Recommended by multiple algorithms"
                              contributing_algorithms := q.algorithms })) =
        (fun g : Grouped => g.productId == p) := rfl
    rw [hpred, hsortfilter]
    rfl
  · unfold hybridCombine
    rw [htake, List.pairwise_map]
    exact (sortGrouped_sorted (groupCands recs)).imp (fun h => h)

/-- Witness for the amended C3: same candidates with limit 2, the merged
p7 entry survives with summed score and both contributing algorithms. -/
theorem hybridCombine_merges_shared_product_witness :
    (candsEx.filter (fun c => c.productId == "p7") =
      [⟨"p7", 1, "collaborative_filtering",
        "Users with similar preferences also liked this"⟩,
       ⟨"p7", 1, "content_based_filtering",
        "Based on products you have viewed"⟩])
    ∧ ((groupCands candsEx).length ≤ 2)
    ∧ ((hybridCombine candsEx 2).filter (fun h => h.productId == "p7") =
        [⟨"p7", 1 + 1, "hybrid", "Recommended by multiple algorithms",
          ["collaborative_filtering", "content_based_filtering"]⟩]
      ∧ List.Pairwise (fun a b => b.score ≤ a.score) (hybridCombine candsEx 2)) :=
  ⟨by with_unfolding_all rfl, of_decide_eq_true (by with_unfolding_all rfl),
   hybridCombine_merges_shared_product candsEx 2 "p7" 1 1
     "Users with similar preferences also liked this"
     "Based on products you have viewed"
     (by with_unfolding_all rfl) (of_decide_eq_true (by with_unfolding_all rfl))⟩

end EcommerceML
